import Mathlib

set_option maxHeartbeats 1000000

/-!
Verification of the Store layer of the Nano Exhibition Manager
(`src/nano_expo_react_app (1)/src/App.jsx`).

The app keeps four collections of flat records (exhibitors, booths, events,
attendees) inside one aggregate, persists the aggregate as JSON text in a
single local-storage key, and offers generic add/update/remove-by-id
operations, case-insensitive substring filtering, and CSV export.

JavaScript records are modelled as insertion-ordered association lists from
string field names to string values; property access returns `Option String`
(`none` is JS `undefined`).  Platform services (local storage, `Math.random`,
`JSON.parse`) enter as explicit inputs or parameters of the functions that use
them; everything else is translated directly from the source.
-/

/-- A flat JavaScript-style record: an insertion-ordered association list of
string field names to string values. -/
abbrev Record := List (String × String)

/-- Property access `r[k]` / `r.k`: the value at the first occurrence of key
`k`, `none` when the field is missing (JS `undefined`). -/
def getField (r : Record) (k : String) : Option String :=
  (r.find? (fun kv => kv.1 == k)).map (fun kv => kv.2)

/-- Property access with a missing value coerced to the empty string, as JS
`Array.prototype.join` and `row[c.key] ?? ""` do. -/
def fieldD (r : Record) (k : String) : String := (getField r k).getD ""

/-- Whether the record has a field named `k`. -/
def hasKey (k : String) (r : Record) : Bool := r.any (fun kv => kv.1 == k)

/-- The top-level aggregate `{exhibitors, booths, events, attendees}` — the
unit of persistence (App.jsx line 14, `sampleData`'s shape). -/
structure Aggregate where
  exhibitors : List Record
  booths : List Record
  events : List Record
  attendees : List Record
  deriving DecidableEq

/-- The four collection names that index the aggregate. -/
inductive CollectionName where
  | exhibitors
  | booths
  | events
  | attendees
  deriving DecidableEq

/-- Dynamic collection lookup `d[collection]`. -/
def getColl (d : Aggregate) : CollectionName → List Record
  | .exhibitors => d.exhibitors
  | .booths => d.booths
  | .events => d.events
  | .attendees => d.attendees

/-- The computed-key spread `{ ...d, [collection]: l }`: replace one named
collection, keep the other three. -/
def setColl (d : Aggregate) : CollectionName → List Record → Aggregate
  | .exhibitors, l => { d with exhibitors := l }
  | .booths, l => { d with booths := l }
  | .events, l => { d with events := l }
  | .attendees, l => { d with attendees := l }

/-- The bundled sample aggregate (App.jsx lines 14-29), fields listed in
source order. -/
def sampleData : Aggregate where
  exhibitors :=
    [ [("id", "ex-1"), ("name", "NanoTech Lab"), ("contact", "info@nanotech.example"),
       ("booth", "A1"), ("notes", "Graphene demos")],
      [("id", "ex-2"), ("name", "Micro Instruments"), ("contact", "sales@micro.example"),
       ("booth", "B2"), ("notes", "AFM & SEM")] ]
  booths :=
    [ [("id", "b-A1"), ("code", "A1"), ("size", "3x3"), ("notes", "Near entrance")],
      [("id", "b-B2"), ("code", "B2"), ("size", "3x2"), ("notes", "Corner")] ]
  events :=
    [ [("id", "ev-1"), ("title", "Opening Ceremony"), ("start", "2025-11-12T10:00"),
       ("end", "2025-11-12T10:30"), ("location", "Main Hall"), ("speaker", "Dr. A")] ]
  attendees :=
    [ [("id", "at-1"), ("name", "Ali Reza"), ("company", "NanoTech Lab"),
       ("type", "Visitor"), ("email", "ali@example.com")] ]

/-- `uid(prefix)` (App.jsx line 31): `prefix + "-" + Math.random().toString(36).slice(2, 9)`.
The random draw enters as the explicit argument `randBase36`, the base-36
rendering of the `Math.random()` result (e.g. `"0.k3j2abc..."`); `slice(2, 9)`
keeps characters 2 through 8 of it. -/
def uid (pre : String) (randBase36 : String) : String :=
  pre ++ "-" ++ String.mk ((randBase36.data.drop 2).take 7)

/-- One field of `it` under the spread `{ ...it, ...patch }`: its value is
replaced by `patch`'s when `patch` also names the key. -/
def mergeFun (patch : Record) (kv : String × String) : String × String :=
  match patch.find? (fun p => p.1 == kv.1) with
  | some p => (kv.1, p.2)
  | none => kv

/-- The JS object spread `{ ...it, ...patch }`: every field of `it` in order,
its value replaced by `patch`'s when `patch` also names it, followed by the
fields only `patch` names, in `patch`'s order. -/
def spreadMerge (it patch : Record) : Record :=
  it.map (mergeFun patch) ++ patch.filter (fun p => ! it.any (fun kv => kv.1 == p.1))

/-- The id test `it.id === id` used by `updateItem` and `removeItem`. -/
def hasId (i : String) (it : Record) : Bool := getField it "id" == some i

/-- `addItem(collection, item)` (App.jsx line 85):
`{ ...d, [collection]: [...d[collection], item] }`. -/
def addItem (d : Aggregate) (c : CollectionName) (item : Record) : Aggregate :=
  setColl d c (getColl d c ++ [item])

/-- `updateItem(collection, id, patch)` (App.jsx line 88):
`{ ...d, [collection]: d[collection].map(it => it.id === id ? { ...it, ...patch } : it) }`. -/
def updateItem (d : Aggregate) (c : CollectionName) (i : String) (patch : Record) :
    Aggregate :=
  setColl d c ((getColl d c).map (fun it => if hasId i it then spreadMerge it patch else it))

/-- `removeItem(collection, id)` (App.jsx line 94):
`{ ...d, [collection]: d[collection].filter(it => it.id !== id) }`. -/
def removeItem (d : Aggregate) (c : CollectionName) (i : String) : Aggregate :=
  setColl d c ((getColl d c).filter (fun it => ! hasId i it))

/-! ### Search filtering (App.jsx lines 99-104) -/

/-- `n.isPrefixOf h` for character lists, spelled out. -/
def leadsWith : List Char → List Char → Bool
  | [], _ => true
  | _ :: _, [] => false
  | a :: n, b :: h => a == b && leadsWith n h

/-- JS `hay.includes(needle)`: the needle occurs contiguously in the hay. -/
def hasSub (n : List Char) : List Char → Bool
  | [] => leadsWith n []
  | c :: t => leadsWith n (c :: t) || hasSub n t

/-- JS `s.toLowerCase()` as the character list of the result: each character
lowercased (ASCII, via `Char.toLower`). -/
def lowerChars (s : String) : List Char := s.data.map Char.toLower

/-- `hay.toLowerCase().includes(q.toLowerCase())`, the query test shared by
the four filtered views. -/
def queryMatches (q hay : String) : Bool :=
  hasSub (lowerChars q) (lowerChars hay)

/-- JS `Array.prototype.join(sep)`: empty list gives `""`, a singleton gives
the element, otherwise the elements separated by `sep`. -/
def joinSep (sep : String) : List String → String
  | [] => ""
  | [a] => a
  | a :: rest => a ++ sep ++ joinSep sep rest

/-- `[e.name, e.contact, e.booth, e.notes].join(" ")` (App.jsx line 100);
`join` renders a missing field as the empty string. -/
def exhibitorSearchText (e : Record) : String :=
  joinSep " " [fieldD e "name", fieldD e "contact", fieldD e "booth", fieldD e "notes"]

/-- `[b.code, b.size, b.notes].join(" ")` (App.jsx line 102). -/
def boothSearchText (b : Record) : String :=
  joinSep " " [fieldD b "code", fieldD b "size", fieldD b "notes"]

/-- `[ev.title, ev.location, ev.speaker].join(" ")` (App.jsx line 103). -/
def eventSearchText (ev : Record) : String :=
  joinSep " " [fieldD ev "title", fieldD ev "location", fieldD ev "speaker"]

/-- `[a.name, a.company, a.email, a.type].join(" ")` (App.jsx line 104). -/
def attendeeSearchText (a : Record) : String :=
  joinSep " " [fieldD a "name", fieldD a "company", fieldD a "email", fieldD a "type"]

/-- `filteredExhibitors` (App.jsx line 99), as a function of the state and the
search box text. -/
def filteredExhibitors (d : Aggregate) (q : String) : List Record :=
  d.exhibitors.filter (fun e => queryMatches q (exhibitorSearchText e))

/-- `filteredBooths` (App.jsx line 102). -/
def filteredBooths (d : Aggregate) (q : String) : List Record :=
  d.booths.filter (fun b => queryMatches q (boothSearchText b))

/-- `filteredEvents` (App.jsx line 103). -/
def filteredEvents (d : Aggregate) (q : String) : List Record :=
  d.events.filter (fun ev => queryMatches q (eventSearchText ev))

/-- `filteredAttendees` (App.jsx line 104). -/
def filteredAttendees (d : Aggregate) (q : String) : List Record :=
  d.attendees.filter (fun a => queryMatches q (attendeeSearchText a))

/-! ### CSV export (App.jsx lines 50-62, the pure text construction) -/

/-- A caller-supplied CSV column descriptor `{key, label}`. -/
structure Column where
  key : String
  label : String

/-- `String(v).replace(/"/g, '""')`: double every double-quote character. -/
def doubleQuotes (s : String) : String :=
  String.mk (s.data.foldr (fun c acc => if c = '"' then '"' :: '"' :: acc else c :: acc) [])

/-- One data cell: `` `"${String(row[c.key] ?? "").replace(/"/g, '""')}"` ``. -/
def csvCell (row : Record) (c : Column) : String :=
  "\"" ++ doubleQuotes (fieldD row c.key) ++ "\""

/-- The header row `columns.map(c => `"${c.label}"`).join(",")` (labels are
quoted but not escaped). -/
def csvHeader (columns : List Column) : String :=
  joinSep "," (columns.map (fun c => "\"" ++ c.label ++ "\""))

/-- One data row: the quoted, escaped cells joined by commas. -/
def csvRow (columns : List Column) (row : Record) : String :=
  joinSep "," (columns.map (csvCell row))

/-- The CSV text built by `exportCSV` (App.jsx lines 51-62) before it is handed
to the download machinery: `header + "\n" + array.map(rowText).join("\n")`. -/
def csvText (array : List Record) (columns : List Column) : String :=
  csvHeader columns ++ "\n" ++ joinSep "\n" (array.map (csvRow columns))

/-! ### Persistence (App.jsx lines 35-48)

`saveToStorage` writes `JSON.stringify(state)` into the single storage key;
`loadFromStorage` reads it back through `JSON.parse` inside `try/catch`.  The
storage slot is modelled as an `Option String` (`none` = key absent) and the
platform's `JSON.stringify` is modelled concretely for this data shape:
objects with the aggregate's four keys in their fixed insertion order, arrays
of flat records, string values, with the standard JSON string escaping. -/

/-- Lowercase hexadecimal digit, as `JSON.stringify` emits in `\u00XY`. -/
def hexDig (n : Nat) : Char :=
  if n < 10 then Char.ofNat (48 + n) else Char.ofNat (87 + n)

/-- One character of a JSON string literal as `JSON.stringify` renders it:
quote and backslash get a backslash escape, the named control characters get
their short escapes, the remaining control characters become `\u00XY`, and
everything else passes through. -/
def escChar (c : Char) : List Char :=
  if c = '"' then ['\\', '"']
  else if c = '\\' then ['\\', '\\']
  else if c = '\x08' then ['\\', 'b']
  else if c = '\t' then ['\\', 't']
  else if c = '\n' then ['\\', 'n']
  else if c = '\x0c' then ['\\', 'f']
  else if c = '\r' then ['\\', 'r']
  else if c.toNat < 32 then ['\\', 'u', '0', '0', hexDig (c.toNat / 16), hexDig (c.toNat % 16)]
  else [c]

/-- The escaped body of a JSON string literal, continued by `tail`. -/
def escBody (s : List Char) (tail : List Char) : List Char :=
  s.foldr (fun c acc => escChar c ++ acc) tail

/-- A JSON string literal: `"` + escaped body + `"`. -/
def encStr (s : String) : List Char :=
  '"' :: escBody s.data ['"']

/-- Comma-separated rendering of a list. -/
def sepList (enc : α → List Char) : List α → List Char
  | [] => []
  | [a] => enc a
  | a :: rest => enc a ++ ',' :: sepList enc rest

/-- One `"key":"value"` member of a record object. -/
def encEntry (kv : String × String) : List Char :=
  encStr kv.1 ++ ':' :: encStr kv.2

/-- A record as a JSON object, members in insertion order. -/
def encRecord (r : Record) : List Char :=
  '{' :: sepList encEntry r ++ ['}']

/-- A collection as a JSON array of record objects. -/
def encArray (rs : List Record) : List Char :=
  '[' :: sepList encRecord rs ++ [']']

/-- One `"name":[...]` member of the aggregate object. -/
def encCollMember (name : String) (rs : List Record) : List Char :=
  encStr name ++ ':' :: encArray rs

/-- `JSON.stringify(state)` for the aggregate: its four collections under
their names, in the fixed insertion order of `sampleData`'s literal. -/
def encAgg (d : Aggregate) : List Char :=
  '{' :: (encCollMember "exhibitors" d.exhibitors ++
    ',' :: encCollMember "booths" d.booths ++
    ',' :: encCollMember "events" d.events ++
    ',' :: encCollMember "attendees" d.attendees) ++ ['}']

/-- The persisted JSON text of an aggregate. -/
def stringifyAggregate (d : Aggregate) : String :=
  String.mk (encAgg d)

/-- `saveToStorage(state)` (App.jsx line 35): the storage slot afterwards
holds exactly `JSON.stringify(state)`. -/
def saveToStorage (state : Aggregate) : Option String :=
  some (stringifyAggregate state)

/-! The parser below models `JSON.parse` on this data shape: it accepts
exactly the canonical texts `stringifyAggregate` produces (`JSON.parse` itself
accepts more; `loadFromStorage` is therefore stated over an arbitrary parse
function where only failure matters, and over this parser for the round
trip). -/

/-- Numeric value of a hexadecimal digit character. -/
def hexVal (c : Char) : Option Nat :=
  if '0' ≤ c ∧ c ≤ '9' then some (c.toNat - 48)
  else if 'a' ≤ c ∧ c ≤ 'f' then some (c.toNat - 87)
  else if 'A' ≤ c ∧ c ≤ 'F' then some (c.toNat - 55)
  else none

/-- Inverse of the two-character escapes. -/
def escDecode (e : Char) : Option Char :=
  if e = '"' then some '"'
  else if e = '\\' then some '\\'
  else if e = 'b' then some '\x08'
  else if e = 't' then some '\t'
  else if e = 'n' then some '\n'
  else if e = 'f' then some '\x0c'
  else if e = 'r' then some '\r'
  else none

/-- Decode one escape sequence (the input starts right after the backslash):
either a two-character escape or `u` followed by four hex digits. -/
def unescapeHead : List Char → Option (Char × List Char)
  | [] => none
  | e :: rest =>
    match escDecode e with
    | some d => some (d, rest)
    | none =>
      if e = 'u' then
        match rest with
        | h1 :: h2 :: h3 :: h4 :: rest2 =>
          match hexVal h1, hexVal h2, hexVal h3, hexVal h4 with
          | some a, some b, some c2, some d2 =>
            some (Char.ofNat (((a * 16 + b) * 16 + c2) * 16 + d2), rest2)
          | _, _, _, _ => none
        | _ => none
      else none

/-- Parse the body of a JSON string literal (after the opening quote) up to
its closing quote; returns the decoded characters and the remaining input.
`fuel` bounds the number of decoded characters. -/
def parseStrBody : Nat → List Char → Option (List Char × List Char)
  | 0, _ => none
  | _ + 1, [] => none
  | fuel + 1, c :: rest =>
    if c = '"' then some ([], rest)
    else if c = '\\' then
      match unescapeHead rest with
      | some (d, rest2) => (parseStrBody fuel rest2).map (fun p => (d :: p.1, p.2))
      | none => none
    else (parseStrBody fuel rest).map (fun p => (c :: p.1, p.2))

/-- Parse a complete JSON string literal. -/
def parseStr (fuel : Nat) (l : List Char) : Option (String × List Char) :=
  match l with
  | [] => none
  | c :: rest =>
    if c = '"' then (parseStrBody fuel rest).map (fun p => (String.mk p.1, p.2))
    else none

/-- Consume one expected character. -/
def expectChar (c : Char) (l : List Char) : Option (List Char) :=
  match l with
  | [] => none
  | x :: rest => if x = c then some rest else none

/-- Parse the members of a record object (input starts at the first key,
pending a closing `}`); `fuel` bounds the number of members. -/
def parseEntries : Nat → List Char → Option (Record × List Char)
  | 0, _ => none
  | fuel + 1, l =>
    match parseStr (fuel + 1) l with
    | none => none
    | some (k, r1) =>
      match expectChar ':' r1 with
      | none => none
      | some r2 =>
        match parseStr (fuel + 1) r2 with
        | none => none
        | some (v, r3) =>
          match r3 with
          | [] => none
          | c :: r4 =>
            if c = ',' then (parseEntries fuel r4).map (fun p => ((k, v) :: p.1, p.2))
            else if c = '}' then some ([(k, v)], r4)
            else none

/-- Parse a record object. -/
def parseRecord (fuel : Nat) (l : List Char) : Option (Record × List Char) :=
  match l with
  | [] => none
  | c :: rest =>
    if c = '{' then
      match rest with
      | [] => none
      | c2 :: rest2 => if c2 = '}' then some ([], rest2) else parseEntries fuel rest
    else none

/-- Parse the items of a record array (input starts at the first record,
pending a closing `]`); `fuel` bounds the number of items. -/
def parseItems : Nat → List Char → Option (List Record × List Char)
  | 0, _ => none
  | fuel + 1, l =>
    match parseRecord (fuel + 1) l with
    | none => none
    | some (r, r1) =>
      match r1 with
      | [] => none
      | c :: r2 =>
        if c = ',' then (parseItems fuel r2).map (fun p => (r :: p.1, p.2))
        else if c = ']' then some ([r], r2)
        else none

/-- Parse an array of record objects. -/
def parseArray (fuel : Nat) (l : List Char) : Option (List Record × List Char) :=
  match l with
  | [] => none
  | c :: rest =>
    if c = '[' then
      match rest with
      | [] => none
      | c2 :: rest2 => if c2 = ']' then some ([], rest2) else parseItems fuel rest
    else none

/-- Parse one `"name":[...]` member of the aggregate, checking the key. -/
def parseCollMember (name : String) (fuel : Nat) (l : List Char) :
    Option (List Record × List Char) :=
  match parseStr fuel l with
  | none => none
  | some (k, r1) =>
    if k = name then
      match expectChar ':' r1 with
      | none => none
      | some r2 => parseArray fuel r2
    else none

/-- Parse a whole canonical aggregate text, requiring the input to be consumed
completely. -/
def parseAggChars (fuel : Nat) (l : List Char) : Option Aggregate :=
  match expectChar '{' l with
  | none => none
  | some r0 =>
    match parseCollMember "exhibitors" fuel r0 with
    | none => none
    | some (ex, r1) =>
      match expectChar ',' r1 with
      | none => none
      | some r2 =>
        match parseCollMember "booths" fuel r2 with
        | none => none
        | some (bo, r3) =>
          match expectChar ',' r3 with
          | none => none
          | some r4 =>
            match parseCollMember "events" fuel r4 with
            | none => none
            | some (ev, r5) =>
              match expectChar ',' r5 with
              | none => none
              | some r6 =>
                match parseCollMember "attendees" fuel r6 with
                | none => none
                | some (ats, r7) =>
                  match expectChar '}' r7 with
                  | some [] => some ⟨ex, bo, ev, ats⟩
                  | _ => none

/-- The model of `JSON.parse` used for the round trip: parse the canonical
aggregate text, with fuel amply bounded by the input length. -/
def parseAggregate (s : String) : Option Aggregate :=
  parseAggChars s.data.length s.data

/-- `loadFromStorage()` (App.jsx lines 39-48): a missing or empty stored value
(JS `!raw`) yields `sampleData`; a stored text on which `JSON.parse` throws —
`parse` returns `none` — is caught and also yields `sampleData`; otherwise the
parsed aggregate is returned.  Total: it never raises to its caller. -/
def loadFromStorage (parse : String → Option Aggregate) (raw : Option String) : Aggregate :=
  match raw with
  | none => sampleData
  | some s =>
    if s = "" then sampleData
    else
      match parse s with
      | some d => d
      | none => sampleData

/-- An aggregate whose booths collection holds two records sharing the id
`"x"` — reachable because `addItem` performs no duplicate-id check. -/
def dupAgg : Aggregate :=
  ⟨[], [[("id", "x"), ("code", "A")], [("id", "x"), ("code", "B")]], [], []⟩

/-- An aggregate whose single attendee carries the id an earlier
`addItem(..., {id: uid("at"), ...})` produced from the random draw whose
base-36 text is `"0.1234567xyz"`; `Math.random` may repeat a value, so a later
call can see this very draw again. -/
def collideAgg : Aggregate :=
  ⟨[], [], [], [[("id", "at-1234567"), ("name", "Ann")]]⟩

/-! ### Collection plumbing -/

theorem getColl_setColl_same (d : Aggregate) (c : CollectionName) (l : List Record) :
    getColl (setColl d c l) c = l := by
  cases c <;> rfl

theorem getColl_setColl_other (d : Aggregate) (c c' : CollectionName) (l : List Record)
    (h : c' ≠ c) : getColl (setColl d c l) c' = getColl d c' := by
  cases c <;> cases c' <;> first | rfl | exact absurd rfl h

theorem setColl_getColl (d : Aggregate) (c : CollectionName) :
    setColl d c (getColl d c) = d := by
  cases d
  cases c <;> rfl

/-! ### Association-list lemmas for field access and the spread merge -/

theorem getField_nil (k : String) : getField [] k = none := rfl

theorem getField_cons (kv : String × String) (r : Record) (k : String) :
    getField (kv :: r) k = if kv.1 == k then some kv.2 else getField r k := by
  cases h : kv.1 == k <;> simp [getField, List.find?_cons, h]

theorem getField_append (r1 r2 : Record) (k : String) :
    getField (r1 ++ r2) k =
      match getField r1 k with
      | some v => some v
      | none => getField r2 k := by
  induction r1 with
  | nil => simp [getField_nil]
  | cons kv t ih =>
    rw [List.cons_append, getField_cons, getField_cons]
    cases h : kv.1 == k <;> simp [h, ih]

theorem mergeFun_fst (patch : Record) (kv : String × String) :
    (mergeFun patch kv).1 = kv.1 := by
  cases hp : patch.find? (fun p => p.1 == kv.1) <;> simp [mergeFun, hp]

theorem getField_mapLayer (patch it : Record) (k : String) :
    getField (it.map (mergeFun patch)) k =
      match getField it k with
      | none => none
      | some v =>
        match getField patch k with
        | some w => some w
        | none => some v := by
  induction it with
  | nil => simp [getField_nil]
  | cons kv t ih =>
    rw [List.map_cons, getField_cons, getField_cons, mergeFun_fst]
    cases h : kv.1 == k
    · simp [h, ih]
    · have hk : kv.1 = k := eq_of_beq h
      subst hk
      cases hp : patch.find? (fun p => p.1 == kv.1) <;>
        simp [mergeFun, hp, getField]

theorem find?_filter_of_imp {α : Type} (l : List α) (test q : α → Bool)
    (h : ∀ x, test x = true → q x = true) :
    (l.filter q).find? test = l.find? test := by
  induction l with
  | nil => rfl
  | cons a t ih =>
    cases hq : q a
    · have ht : test a = false := by
        cases hta : test a
        · rfl
        · rw [h a hta] at hq; cases hq
      simp [List.filter_cons, hq, List.find?_cons, ht, ih]
    · cases hta : test a <;> simp [List.filter_cons, hq, List.find?_cons, hta, ih]

theorem getField_filterLayer (it patch : Record) (k : String)
    (hit : getField it k = none) :
    getField (patch.filter (fun p => ! it.any (fun kv => kv.1 == p.1))) k =
      getField patch k := by
  have h1 : it.find? (fun kv => kv.1 == k) = none := by
    cases hf : it.find? (fun kv => kv.1 == k)
    · rfl
    · rw [getField, hf] at hit; simp at hit
  unfold getField
  rw [find?_filter_of_imp]
  intro p hp
  have hk : p.1 = k := eq_of_beq hp
  subst hk
  have h2 := List.find?_eq_none.mp h1
  simp only [Bool.not_eq_true']
  cases ha : it.any (fun kv => kv.1 == p.1)
  · rfl
  · obtain ⟨x, hx, hpx⟩ := List.any_eq_true.mp ha
    exact absurd hpx (h2 x hx)

theorem getField_spreadMerge (it patch : Record) (k : String) :
    getField (spreadMerge it patch) k =
      match getField patch k with
      | some w => some w
      | none => getField it k := by
  unfold spreadMerge
  rw [getField_append, getField_mapLayer]
  cases hi : getField it k
  · rw [getField_filterLayer it patch k hi]
    cases hp : getField patch k <;> simp
  · cases hp : getField patch k <;> simp

/-! ### C1 — updateItem on an existing id -/

/-- C1 (counterexample): the claim says the record's id is unchanged even if
`patch` itself contains an `id` field, but the spread `{ ...it, ...patch }`
lets the patch win on `id` too: patching booth `b-A1` of the sample data with
`{id: "zz"}` renames its id to `"zz"`. -/
theorem C1_counterexample :
    getField ((getColl sampleData .booths).headD []) "id" = some "b-A1" ∧
    getField
      ((getColl (updateItem sampleData .booths "b-A1" [("id", "zz")]) .booths).headD [])
      "id" = some "zz" := by
  constructor <;> rfl

/-- C1 (amended): for the record whose id matches, every field named in
`patch` takes `patch`'s value — including `id` itself if `patch` names it —
fields not named in `patch` keep their prior values (so the id is unchanged
whenever `patch` has no `id` field), non-matching records are untouched, and
the collection's length is unchanged. -/
theorem C1_updateItem_patches_matching (d : Aggregate) (c : CollectionName)
    (i : String) (patch : Record) :
    ((getColl (updateItem d c i patch) c).length = (getColl d c).length) ∧
    (∀ j (h : j < (getColl d c).length)
        (h2 : j < (getColl (updateItem d c i patch) c).length),
      (hasId i ((getColl d c).get ⟨j, h⟩) = false →
        (getColl (updateItem d c i patch) c).get ⟨j, h2⟩ = (getColl d c).get ⟨j, h⟩) ∧
      (hasId i ((getColl d c).get ⟨j, h⟩) = true →
        (∀ k w, getField patch k = some w →
          getField ((getColl (updateItem d c i patch) c).get ⟨j, h2⟩) k = some w) ∧
        (∀ k, getField patch k = none →
          getField ((getColl (updateItem d c i patch) c).get ⟨j, h2⟩) k =
            getField ((getColl d c).get ⟨j, h⟩) k))) := by
  have hcoll : getColl (updateItem d c i patch) c =
      (getColl d c).map (fun it => if hasId i it then spreadMerge it patch else it) := by
    rw [updateItem, getColl_setColl_same]
  refine ⟨by rw [hcoll, List.length_map], ?_⟩
  intro j h h2
  have hget : (getColl (updateItem d c i patch) c).get ⟨j, h2⟩ =
      if hasId i ((getColl d c).get ⟨j, h⟩) then
        spreadMerge ((getColl d c).get ⟨j, h⟩) patch
      else (getColl d c).get ⟨j, h⟩ := by
    simp [hcoll, List.get_eq_getElem, List.getElem_map]
  constructor
  · intro hid
    rw [hget, hid]
    simp
  · intro hid
    rw [hget, hid, if_pos rfl]
    constructor
    · intro k w hk
      rw [getField_spreadMerge, hk]
    · intro k hk
      rw [getField_spreadMerge, hk]

/-- C1 witness: patching booth `b-A1` with `{size: "4x4"}` sets its size to
`"4x4"` and keeps its id. -/
theorem C1_witness :
    getField
      ((getColl (updateItem sampleData .booths "b-A1" [("size", "4x4")]) .booths).get
        ⟨0, by decide⟩) "size" = some "4x4" ∧
    getField
      ((getColl (updateItem sampleData .booths "b-A1" [("size", "4x4")]) .booths).get
        ⟨0, by decide⟩) "id" = some "b-A1" := by
  have h := (C1_updateItem_patches_matching sampleData .booths "b-A1"
    [("size", "4x4")]).2 0 (by decide) (by decide)
  have hm := h.2 (by decide)
  refine ⟨hm.1 "size" "4x4" (by decide), ?_⟩
  rw [hm.2 "id" (by decide)]
  rfl

/-! ### C2 — addItem appends and leaves the other collections alone -/

/-- C2: `addItem` appends the item at the end of the named collection,
increasing its length by exactly one, and the other three collections are
exactly unchanged. -/
theorem C2_addItem_appends (d : Aggregate) (c : CollectionName) (item : Record) :
    getColl (addItem d c item) c = getColl d c ++ [item] ∧
    (getColl (addItem d c item) c).length = (getColl d c).length + 1 ∧
    (∀ c', c' ≠ c → getColl (addItem d c item) c' = getColl d c') := by
  refine ⟨getColl_setColl_same d c _, ?_, fun c' h => getColl_setColl_other d c c' _ h⟩
  rw [addItem, getColl_setColl_same, List.length_append, List.length_singleton]

/-- C2 witness: adding a booth leaves the events collection unchanged, and
grows booths from 2 to 3. -/
theorem C2_witness :
    getColl (addItem sampleData .booths [("id", "b-Z9"), ("code", "Z9")]) .events =
      getColl sampleData .events ∧
    (getColl (addItem sampleData .booths [("id", "b-Z9"), ("code", "Z9")]) .booths).length =
      3 := by
  have h := C2_addItem_appends sampleData .booths [("id", "b-Z9"), ("code", "Z9")]
  exact ⟨h.2.2 .events (by decide), h.2.1⟩

/-! ### C3 — removeItem -/

/-- C3 (counterexample): the claim says a successful removal decreases the
length by exactly one, but `filter(it => it.id !== id)` drops every match:
in `dupAgg`, whose two booths share the id `"x"`, removing `"x"` takes the
length from 2 to 0. -/
theorem C3_counterexample :
    (getColl dupAgg .booths).length = 2 ∧
    (∃ it ∈ getColl dupAgg .booths, hasId "x" it = true) ∧
    (getColl (removeItem dupAgg .booths "x") .booths).length = 0 := by
  refine ⟨rfl, ⟨[("id", "x"), ("code", "A")], by decide, by decide⟩, rfl⟩

/-- Counting helper: removing the matches shrinks the list by the number of
matches. -/
theorem length_filter_not_count (l : List Record) (i : String) :
    (l.filter (fun it => ! hasId i it)).length + l.countP (fun it => hasId i it) =
      l.length := by
  induction l with
  | nil => rfl
  | cons a t ih =>
    cases ha : hasId i a <;>
      simp [List.filter_cons, List.countP_cons, ha] <;> omega

/-- C3 (amended): `removeItem` drops exactly the records whose id matches, so
the collection's length decreases by the number of matching records — by
exactly one when exactly one record bears the id — and when no record
matches, the whole aggregate is unchanged (silent no-op); the other three
collections are never touched. -/
theorem C3_removeItem_drops_matches (d : Aggregate) (c : CollectionName) (i : String) :
    ((getColl (removeItem d c i) c).length =
      (getColl d c).length - (getColl d c).countP (fun it => hasId i it)) ∧
    (((getColl d c).countP (fun it => hasId i it) = 1 →
      (getColl (removeItem d c i) c).length + 1 = (getColl d c).length)) ∧
    ((∀ it ∈ getColl d c, hasId i it = false) → removeItem d c i = d) ∧
    (∀ c', c' ≠ c → getColl (removeItem d c i) c' = getColl d c') := by
  have hcoll : getColl (removeItem d c i) c =
      (getColl d c).filter (fun it => ! hasId i it) := by
    rw [removeItem, getColl_setColl_same]
  have hlen := length_filter_not_count (getColl d c) i
  refine ⟨by rw [hcoll]; omega, ?_, ?_, fun c' h => getColl_setColl_other d c c' _ h⟩
  · intro h1
    rw [hcoll]
    omega
  · intro hnone
    rw [removeItem]
    have : (getColl d c).filter (fun it => ! hasId i it) = getColl d c :=
      List.filter_eq_self.mpr (fun a ha => by rw [hnone a ha]; rfl)
    rw [this, setColl_getColl]

/-- C3 witness: removing a nonexistent event id is a no-op on the whole
aggregate, and removing booth `b-A1` shrinks booths from 2 to 1. -/
theorem C3_witness :
    removeItem sampleData .events "nope" = sampleData ∧
    (getColl (removeItem sampleData .booths "b-A1") .booths).length + 1 = 2 := by
  refine ⟨(C3_removeItem_drops_matches sampleData .events "nope").2.2.1 (by decide), ?_⟩
  exact (C3_removeItem_drops_matches sampleData .booths "b-A1").2.1 (by decide)

/-! ### C7 — updateItem on a missing id is a silent no-op -/

/-- C7: when no record of the collection bears the id, `updateItem` returns
the aggregate unchanged — same record lists in all four collections, no
error. -/
theorem C7_updateItem_missing_id_noop (d : Aggregate) (c : CollectionName)
    (i : String) (patch : Record)
    (h : ∀ it ∈ getColl d c, hasId i it = false) :
    updateItem d c i patch = d := by
  rw [updateItem]
  have hmap : (getColl d c).map
      (fun it => if hasId i it then spreadMerge it patch else it) = getColl d c := by
    rw [List.map_congr_left (g := id) (fun a ha => by rw [h a ha]; rfl), List.map_id]
  rw [hmap, setColl_getColl]

/-- C7 witness: patching a nonexistent exhibitor id leaves the sample
aggregate untouched. -/
theorem C7_witness :
    updateItem sampleData .exhibitors "ex-404" [("name", "Ghost")] = sampleData :=
  C7_updateItem_missing_id_noop sampleData .exhibitors "ex-404" [("name", "Ghost")]
    (by decide)

/-! ### C10 — removal and update hit every record whose id matches -/

/-- C10: `removeItem` deletes every record whose id equals the given id (none
survives, every non-match survives), `updateItem` patches every matching
position, and on `dupAgg` a single removal shrinks the collection by two. -/
theorem C10_remove_update_all_matches (d : Aggregate) (c : CollectionName)
    (i : String) (patch : Record) :
    (∀ it ∈ getColl (removeItem d c i) c, hasId i it = false) ∧
    (∀ it ∈ getColl d c, hasId i it = false → it ∈ getColl (removeItem d c i) c) ∧
    (∀ j (h : j < (getColl d c).length)
        (h2 : j < (getColl (updateItem d c i patch) c).length),
      hasId i ((getColl d c).get ⟨j, h⟩) = true →
        (getColl (updateItem d c i patch) c).get ⟨j, h2⟩ =
          spreadMerge ((getColl d c).get ⟨j, h⟩) patch) ∧
    ((getColl (removeItem dupAgg .booths "x") .booths).length + 2 =
      (getColl dupAgg .booths).length) := by
  have hrem : getColl (removeItem d c i) c =
      (getColl d c).filter (fun it => ! hasId i it) := by
    rw [removeItem, getColl_setColl_same]
  have hupd : getColl (updateItem d c i patch) c =
      (getColl d c).map (fun it => if hasId i it then spreadMerge it patch else it) := by
    rw [updateItem, getColl_setColl_same]
  refine ⟨?_, ?_, ?_, rfl⟩
  · intro it hit
    rw [hrem] at hit
    have := (List.mem_filter.mp hit).2
    simpa using this
  · intro it hit hid
    rw [hrem]
    exact List.mem_filter.mpr ⟨hit, by rw [hid]; rfl⟩
  · intro j h h2 hid
    have : (getColl (updateItem d c i patch) c).get ⟨j, h2⟩ =
        if hasId i ((getColl d c).get ⟨j, h⟩) then
          spreadMerge ((getColl d c).get ⟨j, h⟩) patch
        else (getColl d c).get ⟨j, h⟩ := by
      simp [hupd, List.get_eq_getElem, List.getElem_map]
    rw [this, hid, if_pos rfl]

/-- C10 witness: after removing booth `b-A1`, the other sample booth is still
present. -/
theorem C10_witness :
    [("id", "b-B2"), ("code", "B2"), ("size", "3x2"), ("notes", "Corner")] ∈
      getColl (removeItem sampleData .booths "b-A1") .booths :=
  (C10_remove_update_all_matches sampleData .booths "b-A1" []).2.1 _ (by decide) (by decide)

/-! ### C8 — freshness of generated ids -/

/-- C8 (counterexample): id distinctness rests only on the random draw.
`Math.random` may repeat a value; with the draw whose base-36 text is
`"0.1234567xyz"`, `uid("at")` yields `"at-1234567"`, which already names the
attendee of `collideAgg` (itself produced by an earlier `addItem` from the
same draw), and `addItem` appends the duplicate without any check. -/
theorem C8_counterexample :
    getField ((getColl collideAgg .attendees).headD []) "id" =
      some (uid "at" "0.1234567xyz") ∧
    (getColl
        (addItem collideAgg .attendees [("id", uid "at" "0.1234567xyz"), ("name", "Jane")])
        .attendees).map (fun r => getField r "id") =
      [some "at-1234567", some "at-1234567"] := by
  constructor <;> rfl

/-- C8 (amended): the added record carries the generated id
`uid(prefix) = prefix ++ "-" ++ slice(2,9)` of the draw's base-36 text,
unchanged by `addItem`; it is distinct from every pre-existing id in the
collection exactly when that string differs from each of them — `addItem`
itself performs no duplicate-id check, so a repeated draw defeats
distinctness. -/
theorem C8_addItem_id_form (d : Aggregate) (c : CollectionName)
    (pre rand : String) (rest : Record) :
    (getColl (addItem d c (("id", uid pre rand) :: rest)) c =
      getColl d c ++ [("id", uid pre rand) :: rest]) ∧
    getField (("id", uid pre rand) :: rest) "id" = some (uid pre rand) ∧
    uid pre rand = pre ++ "-" ++ String.mk ((rand.data.drop 2).take 7) ∧
    ((∀ it ∈ getColl d c, getField it "id" ≠ some (uid pre rand)) →
      ∀ it ∈ getColl d c,
        getField it "id" ≠ getField (("id", uid pre rand) :: rest) "id") := by
  refine ⟨getColl_setColl_same d c _, ?_, rfl, ?_⟩
  · rw [getField_cons]
    rfl
  · intro hall it hit
    rw [getField_cons]
    simpa using hall it hit

/-- C8 witness: with a draw whose slice is `"zzzzzzz"`, the generated
attendee id differs from the sample attendee's id. -/
theorem C8_witness :
    getField [("id", "at-1"), ("name", "Ali Reza"), ("company", "NanoTech Lab"),
        ("type", "Visitor"), ("email", "ali@example.com")] "id" ≠
      getField (("id", uid "at" "0.zzzzzzzzz") :: [("name", "Jane")]) "id" :=
  (C8_addItem_id_form sampleData .attendees "at" "0.zzzzzzzzz" [("name", "Jane")]).2.2.2
    (by decide) _ (by decide)

/-! ### C6 — filtering -/

/-- The empty needle occurs in every haystack (JS `includes("")`). -/
theorem hasSub_nil (h : List Char) : hasSub [] h = true := by
  induction h with
  | nil => rfl
  | cons c t ih => simp [hasSub, leadsWith]

/-- The empty query matches every record. -/
theorem queryMatches_empty (hay : String) : queryMatches "" hay = true := by
  rw [queryMatches]
  have h : lowerChars "" = [] := rfl
  rw [h, hasSub_nil]

/-- C6: the empty query returns each collection whole, in order; in general a
record survives the filter exactly when the lowercased query occurs in the
lowercased space-join of the collection's documented field subset (name,
contact, booth, notes for exhibitors; code, size, notes for booths; title,
location, speaker for events; name, company, email, type for attendees), and
each filtered view is a sublist of its collection, preserving original
order. -/
theorem C6_filter_views (d : Aggregate) (q : String) :
    (filteredExhibitors d "" = d.exhibitors ∧ filteredBooths d "" = d.booths ∧
     filteredEvents d "" = d.events ∧ filteredAttendees d "" = d.attendees) ∧
    ((∀ e, e ∈ filteredExhibitors d q ↔
        e ∈ d.exhibitors ∧
          queryMatches q (joinSep " " [fieldD e "name", fieldD e "contact",
            fieldD e "booth", fieldD e "notes"]) = true) ∧
     (∀ b, b ∈ filteredBooths d q ↔
        b ∈ d.booths ∧
          queryMatches q (joinSep " " [fieldD b "code", fieldD b "size",
            fieldD b "notes"]) = true) ∧
     (∀ ev, ev ∈ filteredEvents d q ↔
        ev ∈ d.events ∧
          queryMatches q (joinSep " " [fieldD ev "title", fieldD ev "location",
            fieldD ev "speaker"]) = true) ∧
     (∀ a, a ∈ filteredAttendees d q ↔
        a ∈ d.attendees ∧
          queryMatches q (joinSep " " [fieldD a "name", fieldD a "company",
            fieldD a "email", fieldD a "type"]) = true)) ∧
    (List.Sublist (filteredExhibitors d q) d.exhibitors ∧
     List.Sublist (filteredBooths d q) d.booths ∧
     List.Sublist (filteredEvents d q) d.events ∧
     List.Sublist (filteredAttendees d q) d.attendees) := by
  refine ⟨⟨?_, ?_, ?_, ?_⟩, ⟨?_, ?_, ?_, ?_⟩, ?_, ?_, ?_, ?_⟩
  · exact List.filter_eq_self.mpr (fun a _ => queryMatches_empty _)
  · exact List.filter_eq_self.mpr (fun a _ => queryMatches_empty _)
  · exact List.filter_eq_self.mpr (fun a _ => queryMatches_empty _)
  · exact List.filter_eq_self.mpr (fun a _ => queryMatches_empty _)
  · intro e
    simp [filteredExhibitors, exhibitorSearchText, List.mem_filter]
  · intro b
    simp [filteredBooths, boothSearchText, List.mem_filter]
  · intro ev
    simp [filteredEvents, eventSearchText, List.mem_filter]
  · intro a
    simp [filteredAttendees, attendeeSearchText, List.mem_filter]
  · exact List.filter_sublist _
  · exact List.filter_sublist _
  · exact List.filter_sublist _
  · exact List.filter_sublist _

/-- C6 witness: the query `"corner"` finds the sample booth whose notes say
`"Corner"` (case-insensitive), and the empty query returns both sample
booths. -/
theorem C6_witness :
    [("id", "b-B2"), ("code", "B2"), ("size", "3x2"), ("notes", "Corner")] ∈
      filteredBooths sampleData "corner" ∧
    filteredBooths sampleData "" = getColl sampleData .booths := by
  constructor
  · exact ((C6_filter_views sampleData "corner").2.1.2.1 _).mpr ⟨by decide, by decide⟩
  · exact (C6_filter_views sampleData "").1.2.1

/-! ### C4 — load never raises and falls back to the sample data -/

/-- C4: `loadFromStorage` is total (it never raises); with the key absent it
returns the bundled sample aggregate, and likewise whenever `JSON.parse`
fails on the stored text, whatever that text is; the sample aggregate has 2
exhibitors, 2 booths, 1 event and 1 attendee. -/
theorem C4_load_falls_back (parse : String → Option Aggregate) (s : String)
    (hfail : parse s = none) :
    loadFromStorage parse none = sampleData ∧
    loadFromStorage parse (some s) = sampleData ∧
    sampleData.exhibitors.length = 2 ∧ sampleData.booths.length = 2 ∧
    sampleData.events.length = 1 ∧ sampleData.attendees.length = 1 := by
  refine ⟨rfl, ?_, rfl, rfl, rfl, rfl⟩
  rw [loadFromStorage]
  by_cases hs : s = "" <;> simp [hs, hfail]

/-- C4 witness: a stored text the parser rejects loads as the sample data
(here with the concrete canonical parser, which rejects `"not json"`). -/
theorem C4_witness :
    loadFromStorage parseAggregate (some "not json") = sampleData :=
  (C4_load_falls_back parseAggregate "not json" (by decide)).2.1

/-! ### C9 — CSV construction -/

/-- JS `join` on a nonempty tail: head, separator, rest. -/
theorem joinSep_cons (sep a : String) (l : List String) (h : l ≠ []) :
    joinSep sep (a :: l) = a ++ sep ++ joinSep sep l := by
  cases l with
  | nil => exact absurd rfl h
  | cons b t => rfl

/-- C9: for a nonempty record list, the CSV text is exactly the header row of
double-quoted labels followed by one row per record of double-quoted,
comma-joined field values, missing fields rendered as the empty string and
embedded double quotes in values escaped by doubling; concretely, the sample
attendee with columns name/company/email/type yields the documented header
and single data row, and a value containing quotes is doubled. -/
theorem C9_exportCSV_text (array : List Record) (columns : List Column)
    (h : array ≠ []) :
    (csvText array columns =
      joinSep "\n"
        ((joinSep "," (columns.map (fun c => "\"" ++ c.label ++ "\""))) ::
          array.map (fun row =>
            joinSep "," (columns.map (fun c =>
              "\"" ++ doubleQuotes ((getField row c.key).getD "") ++ "\""))))) ∧
    doubleQuotes "say \"hi\"" = "say \"\"hi\"\"" ∧
    csvCell [] ⟨"name", "Name"⟩ = "\"\"" ∧
    csvText sampleData.attendees
        [⟨"name", "Name"⟩, ⟨"company", "Company"⟩, ⟨"email", "Email"⟩, ⟨"type", "Type"⟩] =
      "\"Name\",\"Company\",\"Email\",\"Type\"\n\"Ali Reza\",\"NanoTech Lab\",\"ali@example.com\",\"Visitor\"" := by
  refine ⟨?_, by decide, by decide, by decide⟩
  have harr : array.map (fun row =>
      joinSep "," (columns.map (fun c =>
        "\"" ++ doubleQuotes ((getField row c.key).getD "") ++ "\""))) =
      array.map (csvRow columns) := by
    refine List.map_congr_left (fun a _ => ?_)
    rfl
  rw [harr, joinSep_cons _ _ _ (by simpa using h)]
  rfl

/-- C9 witness: the concrete sample-attendee export, obtained from the
theorem at a nonempty array. -/
theorem C9_witness :
    csvText sampleData.attendees
        [⟨"name", "Name"⟩, ⟨"company", "Company"⟩, ⟨"email", "Email"⟩, ⟨"type", "Type"⟩] =
      "\"Name\",\"Company\",\"Email\",\"Type\"\n\"Ali Reza\",\"NanoTech Lab\",\"ali@example.com\",\"Visitor\"" :=
  (C9_exportCSV_text sampleData.attendees
    [⟨"name", "Name"⟩, ⟨"company", "Company"⟩, ⟨"email", "Email"⟩, ⟨"type", "Type"⟩]
    (by decide)).2.2.2


/-! ### C5 — the save/load round trip -/

theorem escBody_append (s t u : List Char) :
    escBody s t ++ u = escBody s (t ++ u) := by
  induction s with
  | nil => rfl
  | cons c cs ih =>
    show (escChar c ++ escBody cs t) ++ u = escChar c ++ escBody cs (t ++ u)
    rw [List.append_assoc, ih]

theorem hexVal_hexDig (n : Nat) (h : n < 16) : hexVal (hexDig n) = some n := by
  interval_cases n <;> rfl

theorem unescapeHead_unicode (a b : Char) (va vb : Nat) (rest : List Char)
    (ha : hexVal a = some va) (hb : hexVal b = some vb) :
    unescapeHead ('u' :: '0' :: '0' :: a :: b :: rest) =
      some (Char.ofNat (((0 * 16 + 0) * 16 + va) * 16 + vb), rest) := by
  simp only [unescapeHead, escDecode, reduceIte, ha, hb]
  rfl

theorem parseStrBody_escChar (c : Char) (fuel : Nat) (rest : List Char) :
    parseStrBody (fuel + 1) (escChar c ++ rest) =
      (parseStrBody fuel rest).map (fun p => (c :: p.1, p.2)) := by
  by_cases h1 : c = '"'
  · subst h1; rfl
  by_cases h2 : c = '\\'
  · subst h2; rfl
  by_cases h3 : c = '\x08'
  · subst h3; rfl
  by_cases h4 : c = '\t'
  · subst h4; rfl
  by_cases h5 : c = '\n'
  · subst h5; rfl
  by_cases h6 : c = '\x0c'
  · subst h6; rfl
  by_cases h7 : c = '\r'
  · subst h7; rfl
  by_cases h8 : c.toNat < 32
  · have hesc : escChar c =
        ['\\', 'u', '0', '0', hexDig (c.toNat / 16), hexDig (c.toNat % 16)] := by
      simp [escChar, h1, h2, h3, h4, h5, h6, h7, h8]
    have hdiv : c.toNat / 16 < 16 := by omega
    have hmod : c.toNat % 16 < 16 := by omega
    rw [hesc]
    show parseStrBody (fuel + 1) ('\\' :: 'u' :: '0' :: '0' ::
        hexDig (c.toNat / 16) :: hexDig (c.toNat % 16) :: rest) = _
    rw [parseStrBody]
    rw [unescapeHead_unicode _ _ _ _ _ (hexVal_hexDig _ hdiv) (hexVal_hexDig _ hmod)]
    have harith : c.toNat / 16 * 16 + c.toNat % 16 = c.toNat := by omega
    simp [harith, Char.ofNat_toNat]
  · have hesc : escChar c = [c] := by
      simp [escChar, h1, h2, h3, h4, h5, h6, h7, h8]
    rw [hesc]
    show parseStrBody (fuel + 1) (c :: rest) = _
    rw [parseStrBody]
    simp [h1, h2]

theorem parseStrBody_escBody (s : List Char) (fuel : Nat) (rest : List Char)
    (h : s.length < fuel) :
    parseStrBody fuel (escBody s ('"' :: rest)) = some (s, rest) := by
  induction s generalizing fuel with
  | nil =>
    obtain ⟨f, rfl⟩ : ∃ f, fuel = f + 1 := ⟨fuel - 1, by omega⟩
    rfl
  | cons c cs ih =>
    obtain ⟨f, rfl⟩ : ∃ f, fuel = f + 1 := ⟨fuel - 1, by omega⟩
    show parseStrBody (f + 1) (escChar c ++ escBody cs ('"' :: rest)) = _
    rw [parseStrBody_escChar, ih f (by simp at h; omega)]
    rfl

theorem parseStr_encStr (s : String) (fuel : Nat) (rest : List Char)
    (h : s.data.length < fuel) :
    parseStr fuel (encStr s ++ rest) = some (s, rest) := by
  have hb : encStr s ++ rest = '"' :: escBody s.data ('"' :: rest) := by
    show ('"' :: escBody s.data ['"']) ++ rest = _
    rw [List.cons_append, escBody_append]
    rfl
  rw [hb]
  show (parseStrBody fuel (escBody s.data ('"' :: rest))).map
      (fun p => (String.mk p.1, p.2)) = _
  rw [parseStrBody_escBody s.data fuel rest h]
  rfl

theorem parseEntries_sep (r : Record) (fuel : Nat) (rest : List Char)
    (hne : r ≠ [])
    (hf : ∀ kv ∈ r, kv.1.data.length + r.length ≤ fuel ∧
        kv.2.data.length + r.length ≤ fuel) :
    parseEntries fuel (sepList encEntry r ++ '}' :: rest) = some (r, rest) := by
  induction r generalizing fuel with
  | nil => exact absurd rfl hne
  | cons kv r' ih =>
    have h0 := hf kv (List.mem_cons_self kv r')
    simp only [List.length_cons] at h0
    obtain ⟨f, rfl⟩ : ∃ f, fuel = f + 1 := ⟨fuel - 1, by omega⟩
    have hk : kv.1.data.length < f + 1 := by omega
    have hv : kv.2.data.length < f + 1 := by omega
    cases r' with
    | nil =>
      have hshape : sepList encEntry [kv] ++ '}' :: rest =
          encStr kv.1 ++ ':' :: (encStr kv.2 ++ '}' :: rest) := by
        show (encStr kv.1 ++ ':' :: encStr kv.2) ++ '}' :: rest = _
        simp [List.append_assoc]
      rw [hshape, parseEntries, parseStr_encStr _ _ _ hk]
      simp only [expectChar, reduceIte]
      rw [parseStr_encStr _ _ _ hv]
      simp
    | cons kv2 t =>
      have hshape : sepList encEntry (kv :: kv2 :: t) ++ '}' :: rest =
          encStr kv.1 ++ ':' ::
            (encStr kv.2 ++ ',' :: (sepList encEntry (kv2 :: t) ++ '}' :: rest)) := by
        show (encEntry kv ++ ',' :: sepList encEntry (kv2 :: t)) ++ '}' :: rest = _
        show ((encStr kv.1 ++ ':' :: encStr kv.2) ++ ',' :: sepList encEntry (kv2 :: t))
            ++ '}' :: rest = _
        simp [List.append_assoc]
      rw [hshape, parseEntries, parseStr_encStr _ _ _ hk]
      simp only [expectChar, reduceIte]
      rw [parseStr_encStr _ _ _ hv]
      have hrec : parseEntries f (sepList encEntry (kv2 :: t) ++ '}' :: rest) =
          some (kv2 :: t, rest) := by
        refine ih f (by simp) ?_
        intro kv2' hkv2'
        have h1 := hf kv2' (List.mem_cons_of_mem kv hkv2')
        simp only [List.length_cons] at h1 ⊢
        omega
      simp [hrec]

theorem parseRecord_enc (r : Record) (fuel : Nat) (rest : List Char)
    (hf : ∀ kv ∈ r, kv.1.data.length + r.length ≤ fuel ∧
        kv.2.data.length + r.length ≤ fuel) :
    parseRecord fuel (encRecord r ++ rest) = some (r, rest) := by
  cases r with
  | nil => rfl
  | cons kv r' =>
    have hshape : encRecord (kv :: r') ++ rest =
        '{' :: (sepList encEntry (kv :: r') ++ '}' :: rest) := by
      show ('{' :: sepList encEntry (kv :: r') ++ ['}']) ++ rest = _
      simp [List.append_assoc]
    obtain ⟨t, ht⟩ : ∃ t, sepList encEntry (kv :: r') = '"' :: t := by
      cases r' with
      | nil => exact ⟨_, rfl⟩
      | cons kv2 t2 => exact ⟨_, rfl⟩
    rw [hshape, ht]
    show parseEntries fuel (('"' :: t) ++ '}' :: rest) = _
    rw [← ht]
    exact parseEntries_sep _ _ _ (by simp) hf

theorem parseItems_sep (rs : List Record) (fuel : Nat) (rest : List Char)
    (hne : rs ≠ []) (hlen : rs.length ≤ fuel)
    (hf : ∀ r ∈ rs, ∀ kv ∈ r,
        kv.1.data.length + r.length + rs.length ≤ fuel ∧
        kv.2.data.length + r.length + rs.length ≤ fuel) :
    parseItems fuel (sepList encRecord rs ++ ']' :: rest) = some (rs, rest) := by
  induction rs generalizing fuel with
  | nil => exact absurd rfl hne
  | cons r rs' ih =>
    simp only [List.length_cons] at hlen
    obtain ⟨f, rfl⟩ : ∃ f, fuel = f + 1 := ⟨fuel - 1, by omega⟩
    have hrb : ∀ kv ∈ r, kv.1.data.length + r.length ≤ f + 1 ∧
        kv.2.data.length + r.length ≤ f + 1 := by
      intro kv hkv
      have := hf r (List.mem_cons_self r rs') kv hkv
      simp only [List.length_cons] at this
      omega
    cases rs' with
    | nil =>
      show parseItems (f + 1) (encRecord r ++ ']' :: rest) = _
      rw [parseItems, parseRecord_enc r (f + 1) _ hrb]
      rfl
    | cons r2 t =>
      have hshape : sepList encRecord (r :: r2 :: t) ++ ']' :: rest =
          encRecord r ++ ',' :: (sepList encRecord (r2 :: t) ++ ']' :: rest) := by
        show (encRecord r ++ ',' :: sepList encRecord (r2 :: t)) ++ ']' :: rest = _
        simp [List.append_assoc]
      rw [hshape, parseItems, parseRecord_enc r (f + 1) _ hrb]
      have hrec : parseItems f (sepList encRecord (r2 :: t) ++ ']' :: rest) =
          some (r2 :: t, rest) := by
        refine ih f (by simp) (by simp at hlen ⊢; omega) ?_
        intro r' hr' kv hkv
        have := hf r' (List.mem_cons_of_mem r hr') kv hkv
        simp only [List.length_cons] at this ⊢
        omega
      simp [hrec]

theorem parseArray_enc (rs : List Record) (fuel : Nat) (rest : List Char)
    (hlen : rs.length ≤ fuel)
    (hf : ∀ r ∈ rs, ∀ kv ∈ r,
        kv.1.data.length + r.length + rs.length ≤ fuel ∧
        kv.2.data.length + r.length + rs.length ≤ fuel) :
    parseArray fuel (encArray rs ++ rest) = some (rs, rest) := by
  cases rs with
  | nil => rfl
  | cons r rs' =>
    have hshape : encArray (r :: rs') ++ rest =
        '[' :: (sepList encRecord (r :: rs') ++ ']' :: rest) := by
      show ('[' :: sepList encRecord (r :: rs') ++ [']']) ++ rest = _
      simp [List.append_assoc]
    obtain ⟨t, ht⟩ : ∃ t, sepList encRecord (r :: rs') = '{' :: t := by
      cases rs' with
      | nil =>
        cases r with
        | nil => exact ⟨_, rfl⟩
        | cons kv r2 => exact ⟨_, rfl⟩
      | cons rr tt =>
        cases r with
        | nil => exact ⟨_, rfl⟩
        | cons kv r2 => exact ⟨_, rfl⟩
    rw [hshape, ht]
    show parseItems fuel (('{' :: t) ++ ']' :: rest) = _
    rw [← ht]
    exact parseItems_sep _ _ _ (by simp) hlen hf

theorem parseCollMember_enc (name : String) (rs : List Record) (fuel : Nat)
    (rest : List Char)
    (hname : name.data.length < fuel) (hlen : rs.length ≤ fuel)
    (hf : ∀ r ∈ rs, ∀ kv ∈ r,
        kv.1.data.length + r.length + rs.length ≤ fuel ∧
        kv.2.data.length + r.length + rs.length ≤ fuel) :
    parseCollMember name fuel (encCollMember name rs ++ rest) = some (rs, rest) := by
  have hshape : encCollMember name rs ++ rest =
      encStr name ++ ':' :: (encArray rs ++ rest) := by
    show (encStr name ++ ':' :: encArray rs) ++ rest = _
    simp [List.append_assoc]
  rw [hshape, parseCollMember, parseStr_encStr _ _ _ hname]
  simp only [expectChar, reduceIte]
  rw [parseArray_enc rs fuel rest hlen hf]

theorem parseAggChars_enc (d : Aggregate) (fuel : Nat)
    (hex : "exhibitors".data.length < fuel ∧ d.exhibitors.length ≤ fuel ∧
      ∀ r ∈ d.exhibitors, ∀ kv ∈ r,
        kv.1.data.length + r.length + d.exhibitors.length ≤ fuel ∧
        kv.2.data.length + r.length + d.exhibitors.length ≤ fuel)
    (hbo : "booths".data.length < fuel ∧ d.booths.length ≤ fuel ∧
      ∀ r ∈ d.booths, ∀ kv ∈ r,
        kv.1.data.length + r.length + d.booths.length ≤ fuel ∧
        kv.2.data.length + r.length + d.booths.length ≤ fuel)
    (hev : "events".data.length < fuel ∧ d.events.length ≤ fuel ∧
      ∀ r ∈ d.events, ∀ kv ∈ r,
        kv.1.data.length + r.length + d.events.length ≤ fuel ∧
        kv.2.data.length + r.length + d.events.length ≤ fuel)
    (hat : "attendees".data.length < fuel ∧ d.attendees.length ≤ fuel ∧
      ∀ r ∈ d.attendees, ∀ kv ∈ r,
        kv.1.data.length + r.length + d.attendees.length ≤ fuel ∧
        kv.2.data.length + r.length + d.attendees.length ≤ fuel) :
    parseAggChars fuel (encAgg d) = some d := by
  have hshape : encAgg d =
      '{' :: (encCollMember "exhibitors" d.exhibitors ++
        ',' :: (encCollMember "booths" d.booths ++
          ',' :: (encCollMember "events" d.events ++
            ',' :: (encCollMember "attendees" d.attendees ++ ['}'])))) := by
    show ('{' :: (encCollMember "exhibitors" d.exhibitors ++
        ',' :: encCollMember "booths" d.booths ++
        ',' :: encCollMember "events" d.events ++
        ',' :: encCollMember "attendees" d.attendees)) ++ ['}'] = _
    simp [List.append_assoc]
  rw [hshape, parseAggChars]
  simp only [expectChar, reduceIte]
  rw [parseCollMember_enc "exhibitors" d.exhibitors fuel _ hex.1 hex.2.1 hex.2.2]
  simp only [expectChar, reduceIte]
  rw [parseCollMember_enc "booths" d.booths fuel _ hbo.1 hbo.2.1 hbo.2.2]
  simp only [expectChar, reduceIte]
  rw [parseCollMember_enc "events" d.events fuel _ hev.1 hev.2.1 hev.2.2]
  simp only [expectChar, reduceIte]
  rw [parseCollMember_enc "attendees" d.attendees fuel _ hat.1 hat.2.1 hat.2.2]
  rfl

theorem escBody_length (s tail : List Char) :
    s.length + tail.length ≤ (escBody s tail).length := by
  induction s with
  | nil => simp [escBody]
  | cons c cs ih =>
    have h1 : 1 ≤ (escChar c).length := by
      by_cases h1 : c = '"' <;> by_cases h2 : c = '\\' <;> by_cases h3 : c = '\x08' <;>
        by_cases h4 : c = '\t' <;> by_cases h5 : c = '\n' <;> by_cases h6 : c = '\x0c' <;>
        by_cases h7 : c = '\r' <;> by_cases h8 : c.toNat < 32 <;>
        simp [escChar, h1, h2, h3, h4, h5, h6, h7, h8]
    show (c :: cs).length + tail.length ≤ (escChar c ++ escBody cs tail).length
    rw [List.length_append, List.length_cons]
    omega

theorem encStr_length (s : String) : s.data.length + 2 ≤ (encStr s).length := by
  have h := escBody_length s.data ['"']
  simp only [List.length_singleton] at h
  show _ ≤ ('"' :: escBody s.data ['"']).length
  simp only [List.length_cons]
  omega

theorem one_le_encStr (s : String) : 1 ≤ (encStr s).length := by
  show 1 ≤ ('"' :: escBody s.data ['"']).length
  simp only [List.length_cons]
  omega

theorem sepList_le {α : Type} (enc : α → List Char) (l : List α)
    (h : ∀ x ∈ l, 1 ≤ (enc x).length) :
    l.length ≤ (sepList enc l).length := by
  induction l with
  | nil => simp [sepList]
  | cons a t ih =>
    cases t with
    | nil => simpa [sepList] using h a (by simp)
    | cons b t2 =>
      have ha := h a (by simp)
      have ht := ih (fun x hx => h x (by simp [hx]))
      show (b :: t2).length + 1 ≤ (enc a ++ ',' :: sepList enc (b :: t2)).length
      simp only [List.length_append, List.length_cons] at ht ⊢
      omega

theorem sepList_mem_le {α : Type} (enc : α → List Char) (l : List α) (a : α)
    (ha : a ∈ l) (h : ∀ x ∈ l, 1 ≤ (enc x).length) :
    (enc a).length + l.length ≤ (sepList enc l).length + 1 := by
  induction l with
  | nil => cases ha
  | cons b t ih =>
    cases t with
    | nil =>
      rcases List.mem_singleton.mp ha with rfl
      simp [sepList]
    | cons c t2 =>
      have hlen := sepList_le enc (c :: t2) (fun x hx => h x (by simp [hx]))
      rcases List.mem_cons.mp ha with rfl | hmem
      · show (enc a).length + ((c :: t2).length + 1) ≤
            (enc a ++ ',' :: sepList enc (c :: t2)).length + 1
        simp only [List.length_append, List.length_cons] at hlen ⊢
        omega
      · have h2 := ih hmem (fun x hx => h x (by simp [hx]))
        have hb := h b (by simp)
        show (enc a).length + ((c :: t2).length + 1) ≤
            (enc b ++ ',' :: sepList enc (c :: t2)).length + 1
        simp only [List.length_append, List.length_cons] at hlen h2 ⊢
        omega

theorem one_le_encEntry (kv : String × String) : 1 ≤ (encEntry kv).length := by
  have h := one_le_encStr kv.1
  show 1 ≤ (encStr kv.1 ++ ':' :: encStr kv.2).length
  rw [List.length_append]
  omega

theorem one_le_encRecord (r : Record) : 1 ≤ (encRecord r).length := by
  show 1 ≤ ('{' :: sepList encEntry r ++ ['}']).length
  simp only [List.cons_append, List.length_cons]
  omega

theorem encEntry_length (kv : String × String) :
    kv.1.data.length + 3 ≤ (encEntry kv).length ∧
    kv.2.data.length + 3 ≤ (encEntry kv).length := by
  have h1 := encStr_length kv.1
  have h2 := encStr_length kv.2
  have h3 := one_le_encStr kv.1
  show kv.1.data.length + 3 ≤ (encStr kv.1 ++ ':' :: encStr kv.2).length ∧
      kv.2.data.length + 3 ≤ (encStr kv.1 ++ ':' :: encStr kv.2).length
  rw [List.length_append, List.length_cons]
  omega

theorem encRecord_length_eq (r : Record) :
    (encRecord r).length = (sepList encEntry r).length + 2 := by
  show ('{' :: sepList encEntry r ++ ['}']).length = _
  simp only [List.cons_append, List.length_cons, List.length_append, List.length_singleton,
    List.length_nil]

theorem encRecord_mem_length (r : Record) (kv : String × String) (hkv : kv ∈ r) :
    kv.1.data.length + r.length + 4 ≤ (encRecord r).length ∧
    kv.2.data.length + r.length + 4 ≤ (encRecord r).length := by
  have h1 := sepList_mem_le encEntry r kv hkv (fun x _ => one_le_encEntry x)
  have h2 := encEntry_length kv
  have h3 := encRecord_length_eq r
  omega

theorem encArray_length_eq (rs : List Record) :
    (encArray rs).length = (sepList encRecord rs).length + 2 := by
  show ('[' :: sepList encRecord rs ++ [']']).length = _
  simp only [List.cons_append, List.length_cons, List.length_append, List.length_singleton,
    List.length_nil]

theorem encArray_bounds (rs : List Record) :
    rs.length ≤ (encArray rs).length ∧
    ∀ r ∈ rs, ∀ kv ∈ r,
      kv.1.data.length + r.length + rs.length ≤ (encArray rs).length ∧
      kv.2.data.length + r.length + rs.length ≤ (encArray rs).length := by
  have hlen := sepList_le encRecord rs (fun x _ => one_le_encRecord x)
  have heq := encArray_length_eq rs
  refine ⟨by omega, ?_⟩
  intro r hr kv hkv
  have h1 := sepList_mem_le encRecord rs r hr (fun x _ => one_le_encRecord x)
  have h2 := encRecord_mem_length r kv hkv
  omega

theorem encAgg_length_eq (d : Aggregate) :
    (encAgg d).length =
      (encStr "exhibitors").length + (encArray d.exhibitors).length +
      (encStr "booths").length + (encArray d.booths).length +
      (encStr "events").length + (encArray d.events).length +
      (encStr "attendees").length + (encArray d.attendees).length + 9 := by
  show ('{' :: (encCollMember "exhibitors" d.exhibitors ++
      ',' :: encCollMember "booths" d.booths ++
      ',' :: encCollMember "events" d.events ++
      ',' :: encCollMember "attendees" d.attendees) ++ ['}']).length = _
  simp only [encCollMember, List.cons_append, List.length_cons, List.length_append,
    List.length_singleton, List.length_nil]
  omega

theorem parseAgg_enc_full (d : Aggregate) :
    parseAggChars (encAgg d).length (encAgg d) = some d := by
  have hF := encAgg_length_eq d
  have hn1 := encStr_length "exhibitors"
  have hn2 := encStr_length "booths"
  have hn3 := encStr_length "events"
  have hn4 := encStr_length "attendees"
  have hb1 := encArray_bounds d.exhibitors
  have hb2 := encArray_bounds d.booths
  have hb3 := encArray_bounds d.events
  have hb4 := encArray_bounds d.attendees
  apply parseAggChars_enc
  · refine ⟨by omega, by omega, ?_⟩
    intro r hr kv hkv
    have := hb1.2 r hr kv hkv
    omega
  · refine ⟨by omega, by omega, ?_⟩
    intro r hr kv hkv
    have := hb2.2 r hr kv hkv
    omega
  · refine ⟨by omega, by omega, ?_⟩
    intro r hr kv hkv
    have := hb3.2 r hr kv hkv
    omega
  · refine ⟨by omega, by omega, ?_⟩
    intro r hr kv hkv
    have := hb4.2 r hr kv hkv
    omega

/-- C5: for every aggregate (four lists of flat records with string fields),
`save` followed by `load` is the identity: the JSON text written by
`saveToStorage` is parsed back by `loadFromStorage` to a structurally equal
aggregate. -/
theorem C5_save_load_round_trip (d : Aggregate) :
    loadFromStorage parseAggregate (saveToStorage d) = d := by
  have hne : stringifyAggregate d ≠ "" := by
    intro h
    have h2 : (stringifyAggregate d).data = ("" : String).data := by rw [h]
    have h3 : (stringifyAggregate d).data = encAgg d := rfl
    have h4 : ("" : String).data = [] := rfl
    rw [h3, h4] at h2
    have h5 : encAgg d = '{' :: (encCollMember "exhibitors" d.exhibitors ++
        ',' :: encCollMember "booths" d.booths ++
        ',' :: encCollMember "events" d.events ++
        ',' :: encCollMember "attendees" d.attendees) ++ ['}'] := rfl
    rw [h5] at h2
    simp at h2
  have hparse : parseAggregate (stringifyAggregate d) = some d := by
    show parseAggChars (stringifyAggregate d).data.length (stringifyAggregate d).data =
      some d
    rw [show (stringifyAggregate d).data = encAgg d from rfl]
    exact parseAgg_enc_full d
  show (if stringifyAggregate d = "" then sampleData
    else
      match parseAggregate (stringifyAggregate d) with
      | some a => a
      | none => sampleData) = d
  rw [if_neg hne, hparse]
